import Mathlib

/-!
Verification of the N-Body simulation repository.

The development embeds two generations of code present in the sources:

* `F32`: the `particle.rs` / `app.rs` generation, whose `Particle` carries
  32-bit float coordinates.  Because the claims about this code concern
  NaN/Infinity propagation, its scalars are embedded as `Fl`, an idealized
  IEEE value: a real-number payload (arithmetic is exact, overflow and
  rounding are idealized away, zero is unsigned) extended with the special
  values `+inf`, `-inf` and `nan`, with the IEEE special-value rules for
  the operations the code uses.

* `Sim`: the `world.rs` / `sequential_world.rs` / `rayon_world.rs` /
  `worker_threads.rs` generation over `glam::DVec2` doubles, embedded over
  exact real 2-vectors.  Its `Particle::net_acceleration` method is not in
  the sources (only the callers are), so that one function is modelled
  from the specification; everything else is translated from the source.

The worker-pool strategy is modelled twice: `WorkerThreadsWorld.update1`
is the phase-separated (all snapshot reads before any write) result, and
`raceRun` is a small-step interleaving semantics of `process_particles`
in which every read-lock section and write-lock section is one atomic
event, so arbitrary schedules between the two barriers can be examined.
-/

set_option maxHeartbeats 1000000

/-- Idealized IEEE floating-point value: exact real payload plus the special
values.  Rounding and overflow are idealized away (payloads are exact reals);
zero is unsigned, which matches the sign-independent outcomes used here. -/
inductive Fl where
  | fin (x : ℝ)
  | pinf
  | ninf
  | nan

/-- IEEE negation on idealized floats. -/
noncomputable def Fl.neg : Fl → Fl
  | .fin x => .fin (-x)
  | .pinf => .ninf
  | .ninf => .pinf
  | .nan => .nan

/-- IEEE addition on idealized floats. -/
noncomputable def Fl.add : Fl → Fl → Fl
  | .nan, _ => .nan
  | _, .nan => .nan
  | .fin x, .fin y => .fin (x + y)
  | .fin _, .pinf => .pinf
  | .fin _, .ninf => .ninf
  | .pinf, .fin _ => .pinf
  | .ninf, .fin _ => .ninf
  | .pinf, .pinf => .pinf
  | .ninf, .ninf => .ninf
  | .pinf, .ninf => .nan
  | .ninf, .pinf => .nan

/-- IEEE subtraction, as addition of the negation. -/
noncomputable def Fl.sub (a b : Fl) : Fl := Fl.add a (Fl.neg b)

/-- IEEE multiplication on idealized floats; `0 * inf = nan`. -/
noncomputable def Fl.mul : Fl → Fl → Fl
  | .nan, _ => .nan
  | _, .nan => .nan
  | .fin x, .fin y => .fin (x * y)
  | .fin x, .pinf => if 0 < x then .pinf else if x < 0 then .ninf else .nan
  | .fin x, .ninf => if 0 < x then .ninf else if x < 0 then .pinf else .nan
  | .pinf, .fin y => if 0 < y then .pinf else if y < 0 then .ninf else .nan
  | .ninf, .fin y => if 0 < y then .ninf else if y < 0 then .pinf else .nan
  | .pinf, .pinf => .pinf
  | .pinf, .ninf => .ninf
  | .ninf, .pinf => .ninf
  | .ninf, .ninf => .pinf

/-- IEEE division on idealized floats; a nonzero finite value divided by
(unsigned) zero is a signed infinity, `0 / 0 = nan`, `inf / inf = nan`. -/
noncomputable def Fl.div : Fl → Fl → Fl
  | .nan, _ => .nan
  | _, .nan => .nan
  | .fin x, .fin y =>
      if y = 0 then (if x = 0 then .nan else if 0 < x then .pinf else .ninf)
      else .fin (x / y)
  | .fin _, .pinf => .fin 0
  | .fin _, .ninf => .fin 0
  | .pinf, .fin y => if 0 ≤ y then .pinf else .ninf
  | .ninf, .fin y => if 0 ≤ y then .ninf else .pinf
  | .pinf, .pinf => .nan
  | .pinf, .ninf => .nan
  | .ninf, .pinf => .nan
  | .ninf, .ninf => .nan

/-- IEEE square root on idealized floats. -/
noncomputable def Fl.sqrt : Fl → Fl
  | .nan => .nan
  | .pinf => .pinf
  | .ninf => .nan
  | .fin x => if x < 0 then .nan else .fin (Real.sqrt x)

/-- The IEEE `is_nan` test. -/
def Fl.isNan : Fl → Bool
  | .nan => true
  | _ => false

/-- A 2-vector of idealized floats, embedding `coffee::graphics::Vector` /
`Point` (nalgebra `Vector2<f32>` / `Point2<f32>`). -/
abbrev FVec : Type := Fl × Fl

/-- Componentwise vector subtraction, as in `lhs.position - rhs.position`. -/
noncomputable def fvSub (a b : FVec) : FVec := (Fl.sub a.1 b.1, Fl.sub a.2 b.2)

/-- Componentwise vector addition. -/
noncomputable def fvAdd (a b : FVec) : FVec := (Fl.add a.1 b.1, Fl.add a.2 b.2)

/-- Componentwise vector negation. -/
noncomputable def fvNeg (a : FVec) : FVec := (Fl.neg a.1, Fl.neg a.2)

/-- nalgebra `magnitude_squared`: the dot product of the vector with itself. -/
noncomputable def magSq (v : FVec) : Fl := Fl.add (Fl.mul v.1 v.1) (Fl.mul v.2 v.2)

/-- nalgebra `magnitude`: the square root of `magnitude_squared`. -/
noncomputable def magFl (v : FVec) : Fl := Fl.sqrt (magSq v)

/-- Vector divided by a scalar, componentwise. -/
noncomputable def fvDivS (v : FVec) (c : Fl) : FVec := (Fl.div v.1 c, Fl.div v.2 c)

/-- Scalar times vector, componentwise. -/
noncomputable def fvScale (c : Fl) (v : FVec) : FVec := (Fl.mul c v.1, Fl.mul c v.2)

/-- Vector times scalar, componentwise (nalgebra `Vector * f32`). -/
noncomputable def fvScaleR (v : FVec) (c : Fl) : FVec := (Fl.mul v.1 c, Fl.mul v.2 c)

/-- Sum of a list of vectors, folded from the zero vector as nalgebra's
`Sum` implementation does for `.sum()` on an iterator. -/
noncomputable def fvsum (l : List FVec) : FVec :=
  l.foldl fvAdd (Fl.fin 0, Fl.fin 0)

/-- The gravitational constant `G` of `particle.rs` (`6.67430e-11`), which is
also the value `6.6743e-11` the spec uses. -/
noncomputable def G : ℝ := 6.6743e-11

namespace F32

/-- The `Particle` struct of `particle.rs` (f32 generation): id, velocity,
position, mass and the per-step scratch acceleration. -/
structure Particle where
  id : ℕ
  velocity : FVec
  position : FVec
  mass : Fl
  acceleration : FVec

/-- `calculate_acceleration` of `particle.rs`: the acceleration imparted on
`lhs` by `rhs`; scalar `(-1 * G * rhs.mass) / |d|²` with an `is_nan` guard,
then scaled onto the unit vector `d / |d|`. -/
noncomputable def calculate_acceleration (lhs rhs : Particle) : FVec :=
  let distance : FVec := fvSub lhs.position rhs.position
  let acceleration : Fl :=
    Fl.div (Fl.mul (Fl.mul (Fl.fin (-1)) (Fl.fin G)) rhs.mass) (magSq distance)
  if acceleration.isNan then (Fl.fin 0, Fl.fin 0)
  else fvScale acceleration (fvDivS distance (magFl distance))

/-- `net_acceleration` of `particle.rs`: sum of `calculate_acceleration`
over all particles of the vector whose id differs from the subject's. -/
noncomputable def net_acceleration (iterator : List Particle) (particle : Particle) : FVec :=
  fvsum ((iterator.filter (fun other => particle.id != other.id)).map
    (fun other => calculate_acceleration particle other))

/-- `Application::generate_random_particles` of `app.rs`: the random draws
(velocity, position, mass) are taken as a parameter list; the id of every
pushed particle is the collection length read once before the loop, cast
to `u16`. -/
noncomputable def generate_random_particles (entities : List Particle)
    (draws : List (FVec × FVec × Fl)) : List Particle :=
  let len := entities.length
  entities ++ draws.map (fun d =>
    { velocity := d.1, position := d.2.1, mass := d.2.2,
      acceleration := (Fl.fin 0, Fl.fin 0), id := len % 65536 })

end F32

/-- A 2-vector of exact reals, embedding `glam::DVec2` (f64 coordinates are
idealized as exact reals, as appropriate for claims stated up to
floating-point tolerance). -/
abbrev Vec2 : Type := ℝ × ℝ

namespace Sim

/-- The `Particle` struct of the DVec2 generation used by `world.rs`,
`sequential_world.rs`, `rayon_world.rs` and `worker_threads.rs`: id
(`usize`), velocity, position, mass. -/
structure Particle where
  id : ℕ
  velocity : Vec2
  position : Vec2
  mass : ℝ

/-- Modelled from the spec: the DVec2 `Particle::acceleration` force law is
not among the source files (only its callers are).  Following section 4.1
of the spec: magnitude `G * mass(source) / distance²`, direction the unit
vector from `subject` toward `source`, and zero acceleration when the two
positions coincide (the zero-distance policy). -/
noncomputable def acceleration (subject source : Particle) : Vec2 :=
  if subject.position = source.position then (0, 0)
  else
    let d : Vec2 := source.position - subject.position
    let r : ℝ := Real.sqrt (d.1 ^ 2 + d.2 ^ 2)
    (G * source.mass / r ^ 2) • (r⁻¹ • d)

/-- Modelled from the spec: the DVec2 `Particle::net_acceleration` method is
not among the source files (only its callers are).  Following section 4.1
of the spec: the sum of `acceleration subject source` over all sources of
the collection whose id differs from the subject's id. -/
noncomputable def net_acceleration (others : List Particle) (subject : Particle) : Vec2 :=
  ((others.filter (fun source => source.id != subject.id)).map
    (fun source => acceleration subject source)).sum

/-- The shared commit lines `particle.velocity += dv;
particle.position += particle.velocity * dt;` applied to one particle. -/
noncomputable def commit (dt : ℝ) (dv : Vec2) (particle : Particle) : Particle :=
  let velocity := particle.velocity + dv
  { particle with velocity := velocity, position := particle.position + dt • velocity }

/-- `SequentialWorld::update` of `sequential_world.rs`: clone the collection,
then for each particle in order compute
`let acceleration = particle.net_acceleration(&particles_clone) * dt;`
followed by `velocity += acceleration * dt; position += velocity * dt;`.
Each iteration reads other particles only through the pre-step clone, so the
loop is a map over the original list. -/
noncomputable def SequentialWorld.update (particles : List Particle) (dt : ℝ) : List Particle :=
  particles.map (fun particle =>
    let acceleration := dt • net_acceleration particles particle
    commit dt (dt • acceleration) particle)

/-- `SequentialWorld::create_particle`: push a particle whose id is the
current collection length. -/
noncomputable def SequentialWorld.create_particle (particles : List Particle)
    (position velocity : Vec2) (mass : ℝ) : List Particle :=
  particles ++ [{ id := particles.length, velocity := velocity,
                  position := position, mass := mass }]

/-- `RayonWorld::update` of `rayon_world.rs`: the same per-particle body as
the sequential strategy, executed by `par_iter_mut` over disjoint elements
against the pre-step clone, hence the same map. -/
noncomputable def RayonWorld.update (particles : List Particle) (dt : ℝ) : List Particle :=
  particles.map (fun particle =>
    let acceleration := dt • net_acceleration particles particle
    commit dt (dt • acceleration) particle)

/-- The `WorkerThreadsWorld` state of `world.rs`: the shared particle vector,
the separate monotone `particle_count`, and the thread count.  The runtime
pieces (barrier, atomic dt, join handles) live in the step models below. -/
structure WorkerThreadsWorld where
  particles : List Particle
  particle_count : ℕ
  num_threads : ℕ

/-- `WorkerThreadsWorld::new`: seeds the collection with the given particles
while initializing `particle_count` to `0`. -/
noncomputable def WorkerThreadsWorld.new (num_threads : ℕ) (particles : List Particle) :
    WorkerThreadsWorld :=
  { particles := particles, particle_count := 0, num_threads := num_threads }

/-- `WorkerThreadsWorld::create_particle`: push a particle whose id is
`particle_count`, then increment `particle_count`. -/
noncomputable def WorkerThreadsWorld.create_particle (w : WorkerThreadsWorld)
    (position velocity : Vec2) (mass : ℝ) : WorkerThreadsWorld :=
  { w with
    particles := w.particles ++ [{ id := w.particle_count, velocity := velocity,
                                   position := position, mass := mass }],
    particle_count := w.particle_count + 1 }

/-- The result of one `WorkerThreadsWorld::update` when every thread's
snapshot read happens before any thread's write (in particular when
`num_threads = 1`, where the main thread alone runs `process_particles`):
each particle's velocity delta is `net_acceleration * dt` against the
pre-step collection, then `velocity += dv; position += velocity * dt;`. -/
noncomputable def WorkerThreadsWorld.update1 (particles : List Particle) (dt : ℝ) :
    List Particle :=
  particles.map (fun particle =>
    commit dt (dt • net_acceleration particles particle) particle)

/-- The index stripe `iter().skip(t).step_by(n)` of `process_particles`,
starting at running index `i`: the elements whose global index is congruent
to `t` modulo `n` (for `t < n`). -/
def stripe (n t : ℕ) : ℕ → List Particle → List Particle
  | _, [] => []
  | i, p :: ps => if i % n = t then p :: stripe n t (i + 1) ps else stripe n t (i + 1) ps

/-- The write phase of `process_particles` for thread `t`: walk the
collection pairing the stripe `skip(t).step_by(n)` with the locally
collected velocity deltas (a `zip`, so pairing stops when the deltas run
out) and commit each pair. -/
noncomputable def applyWrite (n t : ℕ) (dt : ℝ) : ℕ → List Vec2 → List Particle → List Particle
  | _, _, [] => []
  | i, dvs, p :: ps =>
      if i % n = t then
        match dvs with
        | dv :: rest => commit dt dv p :: applyWrite n t dt (i + 1) rest ps
        | [] => p :: applyWrite n t dt (i + 1) [] ps
      else p :: applyWrite n t dt (i + 1) dvs ps

/-- Specification form of one thread's write phase: starting at running
index `i`, commit every particle of thread `t`'s stripe with the delta
computed from the particle itself (used to reason about write phases whose
deltas were collected from a snapshot that agrees with the walked list on
that stripe). -/
noncomputable def writeSpec (n t : ℕ) (dt : ℝ) (g : Particle → Vec2) :
    ℕ → List Particle → List Particle
  | _, [] => []
  | i, p :: ps =>
      (if i % n = t then commit dt (g p) p else p) :: writeSpec n t dt g (i + 1) ps

/-- An atomic event of a worker thread between the two barriers of
`process_particles`: its read-lock section (clone the collection and compute
its stripe's velocity deltas) or its write-lock section (commit them). -/
inductive Ev where
  | read (t : ℕ)
  | write (t : ℕ)

/-- Interleaving state for one step of the worker pool: the shared particle
vector plus each thread's locally collected velocity deltas, present
between its read event and its write event. -/
structure RaceState where
  particles : List Particle
  pending : ℕ → Option (List Vec2)

/-- One atomic event of the worker-pool step.  A read takes the lock, clones
the current collection, and computes `net_acceleration * dt` for the
thread's stripe from that clone; a write takes the lock and commits the
thread's recorded deltas onto its stripe. -/
noncomputable def raceStep (n : ℕ) (dt : ℝ) (s : RaceState) (e : Ev) : RaceState :=
  match e with
  | Ev.read t =>
      { s with pending := (Function.update s.pending t
          (some ((stripe n t 0 s.particles).map
            (fun p => dt • net_acceleration s.particles p)))) }
  | Ev.write t =>
      match s.pending t with
      | some dvs =>
          { particles := applyWrite n t dt 0 dvs s.particles,
            pending := Function.update s.pending t none }
      | none => s

/-- Run one worker-pool step under a given schedule of atomic read/write
events (a valid schedule has, for each thread `t < n`, its read before its
write; the two barriers of `process_particles` enforce nothing more). -/
noncomputable def raceRun (n : ℕ) (dt : ℝ) (init : List Particle) (sched : List Ev) :
    RaceState :=
  sched.foldl (raceStep n dt) { particles := init, pending := fun _ => none }

/-- The id and mass of a particle: the fields a step must not touch. -/
def keyOf (p : Particle) : ℕ × ℝ := (p.id, p.mass)

/-- The mass used in the concrete two-body scenario: `100 / G`, so that
`G * mass = 100` and the accelerations come out as small rationals. -/
noncomputable def mEx : ℝ := 100 / G

/-- First concrete particle: id 0, at the origin, at rest, mass `100 / G`. -/
noncomputable def exP0 : Particle := { id := 0, velocity := (0, 0), position := (0, 0), mass := mEx }

/-- Second concrete particle: id 1, at `(10, 0)`, at rest, mass `100 / G`. -/
noncomputable def exP1 : Particle := { id := 1, velocity := (0, 0), position := (10, 0), mass := mEx }

/-- The concrete two-body world used by the counterexamples. -/
noncomputable def exPair : List Particle := [exP0, exP1]

end Sim

theorem G_pos : 0 < G := by
  norm_num [G]

theorem G_ne : G ≠ 0 := ne_of_gt G_pos

theorem G_mul_mEx : G * Sim.mEx = 100 := by
  rw [Sim.mEx, mul_div_cancel₀ _ G_ne]

/-- Evaluation of the spec-modelled force law when both particles lie on the
x-axis: the unit vector degenerates to `±1` on the x-coordinate. -/
theorem Sim.acceleration_axis (i j : ℕ) (v w : Vec2) (sx ox ms m : ℝ) (h : sx ≠ ox) :
    Sim.acceleration { id := i, velocity := v, position := (sx, 0), mass := ms }
      { id := j, velocity := w, position := (ox, 0), mass := m } =
    ((G * m / (ox - sx) ^ 2) * (|ox - sx|⁻¹ * (ox - sx)), 0) := by
  rw [Sim.acceleration]
  rw [if_neg (by simp [Prod.ext_iff, h])]
  have h2 : ((ox, (0 : ℝ)) - (sx, 0) : Vec2) = (ox - sx, 0) := by
    simp [Prod.ext_iff]
  simp only [h2]
  have h3 : Real.sqrt ((ox - sx) ^ 2 + (0 : ℝ) ^ 2) = |ox - sx| := by
    rw [show ((ox - sx) ^ 2 + (0 : ℝ) ^ 2) = (ox - sx) ^ 2 by ring, Real.sqrt_sq_eq_abs]
  simp only [h3, Prod.smul_mk, smul_eq_mul, sq_abs, mul_zero, Prod.ext_iff]

/-- Net acceleration of the first concrete particle: `(1, 0)`. -/
theorem Sim.netacc_exPair_0 : Sim.net_acceleration [Sim.exP0, Sim.exP1] Sim.exP0 = (1, 0) := by
  have hax := Sim.acceleration_axis 0 1 ((0 : ℝ), (0 : ℝ)) ((0 : ℝ), (0 : ℝ)) 0 10
    Sim.mEx Sim.mEx (by norm_num)
  rw [Sim.net_acceleration]
  simp only [Sim.exPair, Sim.exP0, Sim.exP1, List.filter, bne_self_eq_false,
    List.map, List.sum_cons, List.sum_nil]
  rw [hax]
  norm_num [G_mul_mEx]

/-- Net acceleration of the second concrete particle: `(-1, 0)`. -/
theorem Sim.netacc_exPair_1 : Sim.net_acceleration [Sim.exP0, Sim.exP1] Sim.exP1 = (-1, 0) := by
  have hax := Sim.acceleration_axis 1 0 ((0 : ℝ), (0 : ℝ)) ((0 : ℝ), (0 : ℝ)) 10 0
    Sim.mEx Sim.mEx (by norm_num)
  rw [Sim.net_acceleration]
  simp only [Sim.exPair, Sim.exP0, Sim.exP1, List.filter, bne_self_eq_false,
    List.map, List.sum_cons, List.sum_nil]
  rw [hax]
  norm_num [G_mul_mEx]

/-- Net acceleration of the second concrete particle against the state in
which the first particle has already moved to `(1, 0)`: `(-100/81, 0)`. -/
theorem Sim.netacc_shift_1 :
    Sim.net_acceleration
      [{ id := 0, velocity := (1, 0), position := (1, 0), mass := Sim.mEx }, Sim.exP1]
      Sim.exP1 = (-(100 / 81), 0) := by
  have hax := Sim.acceleration_axis 1 0 ((0 : ℝ), (0 : ℝ)) ((1 : ℝ), (0 : ℝ)) 10 1
    Sim.mEx Sim.mEx (by norm_num)
  rw [Sim.net_acceleration]
  simp only [Sim.exP1, List.filter, bne_self_eq_false,
    List.map, List.sum_cons, List.sum_nil]
  rw [hax]
  norm_num [G_mul_mEx]


/-- Evaluation of `calculate_acceleration` when the two particles have the
same (finite) position and the source mass is a nonzero finite value: the
scalar becomes a signed infinity, so the `is_nan` guard does not fire, and
the infinity multiplied by the `0 / 0` unit vector yields a NaN vector. -/
theorem F32.calcAcc_same_pos (i j : ℕ) (v w aa ab : FVec) (px py : ℝ) (lm : Fl) (m : ℝ)
    (hm : m ≠ 0) :
    F32.calculate_acceleration
      { id := i, velocity := v, position := (Fl.fin px, Fl.fin py), mass := lm,
        acceleration := aa }
      { id := j, velocity := w, position := (Fl.fin px, Fl.fin py), mass := Fl.fin m,
        acceleration := ab } = (Fl.nan, Fl.nan) := by
  have hd : fvSub (Fl.fin px, Fl.fin py) (Fl.fin px, Fl.fin py) = (Fl.fin 0, Fl.fin 0) := by
    simp [fvSub, Fl.sub, Fl.add, Fl.neg]
  have hmagsq : magSq (Fl.fin 0, Fl.fin 0) = Fl.fin 0 := by
    simp [magSq, Fl.mul, Fl.add]
  have hnum : Fl.mul (Fl.mul (Fl.fin (-1)) (Fl.fin G)) (Fl.fin m) = Fl.fin (-(G * m)) := by
    simp [Fl.mul]
  have hmag : magFl (Fl.fin 0, Fl.fin 0) = Fl.fin 0 := by
    simp [magFl, hmagsq, Fl.sqrt]
  have hvdiv : fvDivS (Fl.fin 0, Fl.fin 0) (Fl.fin 0) = (Fl.nan, Fl.nan) := by
    simp [fvDivS, Fl.div]
  rw [F32.calculate_acceleration]
  simp only [hd, hmagsq, hnum, hmag, hvdiv]
  rcases lt_or_gt_of_ne hm with hlt | hgt
  · have hGm : G * m < 0 := mul_neg_of_pos_of_neg G_pos hlt
    have hdiv : Fl.div (Fl.fin (-(G * m))) (Fl.fin 0) = Fl.pinf := by
      simp [Fl.div, G_ne, hm, hGm]
    rw [hdiv]
    simp [Fl.isNan, fvScale, Fl.mul]
  · have hGm : 0 < G * m := mul_pos G_pos hgt
    have hdiv : Fl.div (Fl.fin (-(G * m))) (Fl.fin 0) = Fl.ninf := by
      simp [Fl.div, G_ne, hm, hGm.not_lt]
    rw [hdiv]
    simp [Fl.isNan, fvScale, Fl.mul]

/-- Evaluation of `calculate_acceleration` on finite inputs with distinct
positions: every operation stays finite and the result is the exact
real-arithmetic value of the force law. -/
theorem F32.calcAcc_fin (i j : ℕ) (v w aa ab : FVec) (x1 y1 x2 y2 : ℝ) (lm : Fl) (m : ℝ)
    (h : ((x1 : ℝ), (y1 : ℝ)) ≠ (x2, y2)) :
    F32.calculate_acceleration
      { id := i, velocity := v, position := (Fl.fin x1, Fl.fin y1), mass := lm,
        acceleration := aa }
      { id := j, velocity := w, position := (Fl.fin x2, Fl.fin y2), mass := Fl.fin m,
        acceleration := ab } =
      (Fl.fin (-(G * m) / ((x1 - x2) * (x1 - x2) + (y1 - y2) * (y1 - y2)) *
         ((x1 - x2) / Real.sqrt ((x1 - x2) * (x1 - x2) + (y1 - y2) * (y1 - y2)))),
       Fl.fin (-(G * m) / ((x1 - x2) * (x1 - x2) + (y1 - y2) * (y1 - y2)) *
         ((y1 - y2) / Real.sqrt ((x1 - x2) * (x1 - x2) + (y1 - y2) * (y1 - y2))))) := by
  set s : ℝ := (x1 - x2) * (x1 - x2) + (y1 - y2) * (y1 - y2) with hs_def
  have hs : 0 < s := by
    have hne : x1 ≠ x2 ∨ y1 ≠ y2 := by
      by_contra hc
      push_neg at hc
      exact h (by simp [Prod.ext_iff, hc.1, hc.2])
    rcases hne with hx | hy
    · exact add_pos_of_pos_of_nonneg (mul_self_pos.mpr (sub_ne_zero.mpr hx))
        (mul_self_nonneg _)
    · exact add_pos_of_nonneg_of_pos (mul_self_nonneg _)
        (mul_self_pos.mpr (sub_ne_zero.mpr hy))
  have hr : 0 < Real.sqrt s := Real.sqrt_pos.mpr hs
  have hd : fvSub (Fl.fin x1, Fl.fin y1) (Fl.fin x2, Fl.fin y2) =
      (Fl.fin (x1 - x2), Fl.fin (y1 - y2)) := by
    simp [fvSub, Fl.sub, Fl.add, Fl.neg, sub_eq_add_neg]
  have hmagsq : magSq (Fl.fin (x1 - x2), Fl.fin (y1 - y2)) = Fl.fin s := by
    simp [magSq, Fl.mul, Fl.add, hs_def]
  have hnum : Fl.mul (Fl.mul (Fl.fin (-1)) (Fl.fin G)) (Fl.fin m) = Fl.fin (-(G * m)) := by
    simp [Fl.mul]
  have hdiv : Fl.div (Fl.fin (-(G * m))) (Fl.fin s) = Fl.fin (-(G * m) / s) := by
    simp [Fl.div, hs.ne']
  have hmag : magFl (Fl.fin (x1 - x2), Fl.fin (y1 - y2)) = Fl.fin (Real.sqrt s) := by
    simp [magFl, hmagsq, Fl.sqrt, not_lt_of_gt hs]
  have hvdiv : fvDivS (Fl.fin (x1 - x2), Fl.fin (y1 - y2)) (Fl.fin (Real.sqrt s)) =
      (Fl.fin ((x1 - x2) / Real.sqrt s), Fl.fin ((y1 - y2) / Real.sqrt s)) := by
    simp [fvDivS, Fl.div, hr.ne']
  rw [F32.calculate_acceleration]
  simp only [hd, hmagsq, hnum, hdiv, hmag, hvdiv]
  simp [Fl.isNan, fvScale, Fl.mul]

/-- With a single participant the stripe `skip(0).step_by(1)` is the whole
collection. -/
theorem Sim.stripe_one (i : ℕ) (ps : List Sim.Particle) : Sim.stripe 1 0 i ps = ps := by
  induction ps generalizing i with
  | nil => rfl
  | cons p ps ih => simp [Sim.stripe, Nat.mod_one, ih]

/-- With a single participant the write phase commits every particle with
its own recorded delta. -/
theorem Sim.applyWrite_one (dt : ℝ) (g : Sim.Particle → Vec2) (ps : List Sim.Particle) :
    ∀ i : ℕ, Sim.applyWrite 1 0 dt i (ps.map g) ps =
      ps.map (fun p => Sim.commit dt (g p) p) := by
  induction ps with
  | nil => intro i; rfl
  | cons p ps ih => intro i; simp [Sim.applyWrite, Nat.mod_one, ih]

/-- The write phase never changes a particle's id or mass, nor the length
or order of the collection. -/
theorem Sim.applyWrite_keyOf (n t : ℕ) (dt : ℝ) (ps : List Sim.Particle) :
    ∀ (i : ℕ) (dvs : List Vec2),
      (Sim.applyWrite n t dt i dvs ps).map Sim.keyOf = ps.map Sim.keyOf := by
  induction ps with
  | nil => intro i dvs; rfl
  | cons p ps ih =>
      intro i dvs
      by_cases hc : i % n = t
      · cases dvs with
        | nil => simp [Sim.applyWrite, hc, ih]
        | cons dv rest => simp [Sim.applyWrite, hc, ih, Sim.commit, Sim.keyOf]
      · simp [Sim.applyWrite, hc, ih]

/-- No schedule of read/write events changes any particle's id or mass, nor
the length or order of the collection. -/
theorem Sim.raceRun_keyOf (n : ℕ) (dt : ℝ) (init : List Sim.Particle)
    (sched : List Sim.Ev) :
    ((Sim.raceRun n dt init sched).particles).map Sim.keyOf = init.map Sim.keyOf := by
  suffices h : ∀ (sched : List Sim.Ev) (s : Sim.RaceState),
      ((sched.foldl (Sim.raceStep n dt) s).particles).map Sim.keyOf =
        s.particles.map Sim.keyOf by
    exact h sched _
  intro sched
  induction sched with
  | nil => intro s; rfl
  | cons e es ih =>
      intro s
      rw [List.foldl_cons, ih]
      cases e with
      | read t => rfl
      | write t =>
          cases hc : s.pending t with
          | none => simp [Sim.raceStep, hc]
          | some dvs => simp [Sim.raceStep, hc, Sim.applyWrite_keyOf]

/-- One sequential step on the concrete pair with `dt = 2`: the velocity
delta is `net_acceleration * dt * dt`, i.e. four times the acceleration. -/
theorem Sim.seq_exPair :
    Sim.SequentialWorld.update Sim.exPair 2 =
      [{ id := 0, velocity := (4, 0), position := (8, 0), mass := Sim.mEx },
       { id := 1, velocity := (-4, 0), position := (2, 0), mass := Sim.mEx }] := by
  rw [Sim.SequentialWorld.update]
  simp only [Sim.exPair, List.map_cons, List.map_nil]
  rw [Sim.netacc_exPair_0, Sim.netacc_exPair_1]
  simp only [Sim.commit, Sim.exP0, Sim.exP1, Prod.smul_mk, smul_eq_mul,
    Prod.mk_add_mk]
  norm_num

/-- One phase-separated worker-pool step on the concrete pair with `dt = 2`:
the velocity delta is `net_acceleration * dt`. -/
theorem Sim.worker_exPair :
    Sim.WorkerThreadsWorld.update1 Sim.exPair 2 =
      [{ id := 0, velocity := (2, 0), position := (4, 0), mass := Sim.mEx },
       { id := 1, velocity := (-2, 0), position := (6, 0), mass := Sim.mEx }] := by
  rw [Sim.WorkerThreadsWorld.update1]
  simp only [Sim.exPair, List.map_cons, List.map_nil]
  rw [Sim.netacc_exPair_0, Sim.netacc_exPair_1]
  simp only [Sim.commit, Sim.exP0, Sim.exP1, Prod.smul_mk, smul_eq_mul,
    Prod.mk_add_mk]
  norm_num

/-- One phase-separated worker-pool step on the concrete pair with `dt = 1`. -/
theorem Sim.worker_exPair_one :
    Sim.WorkerThreadsWorld.update1 Sim.exPair 1 =
      [{ id := 0, velocity := (1, 0), position := (1, 0), mass := Sim.mEx },
       { id := 1, velocity := (-1, 0), position := (9, 0), mass := Sim.mEx }] := by
  rw [Sim.WorkerThreadsWorld.update1]
  simp only [Sim.exPair, List.map_cons, List.map_nil]
  rw [Sim.netacc_exPair_0, Sim.netacc_exPair_1]
  simp only [Sim.commit, Sim.exP0, Sim.exP1, Prod.smul_mk, smul_eq_mul,
    Prod.mk_add_mk]
  norm_num

/-- Normal-form restatement of `netacc_exPair_0`. -/
theorem Sim.netacc_lit_0 :
    Sim.net_acceleration
      [{ id := 0, velocity := 0, position := 0, mass := Sim.mEx },
       { id := 1, velocity := 0, position := ((10 : ℝ), (0 : ℝ)), mass := Sim.mEx }]
      { id := 0, velocity := 0, position := 0, mass := Sim.mEx } = (1, 0) :=
  Sim.netacc_exPair_0

/-- Normal-form restatement of `netacc_exPair_1`. -/
theorem Sim.netacc_lit_1 :
    Sim.net_acceleration
      [{ id := 0, velocity := 0, position := 0, mass := Sim.mEx },
       { id := 1, velocity := 0, position := ((10 : ℝ), (0 : ℝ)), mass := Sim.mEx }]
      { id := 1, velocity := 0, position := ((10 : ℝ), (0 : ℝ)), mass := Sim.mEx } = (-1, 0) :=
  Sim.netacc_exPair_1

/-- Normal-form restatement of `netacc_shift_1`. -/
theorem Sim.netacc_shift_lit :
    Sim.net_acceleration
      [{ id := 0, velocity := ((1 : ℝ), (0 : ℝ)), position := ((1 : ℝ), (0 : ℝ)), mass := Sim.mEx },
       { id := 1, velocity := 0, position := ((10 : ℝ), (0 : ℝ)), mass := Sim.mEx }]
      { id := 1, velocity := 0, position := ((10 : ℝ), (0 : ℝ)), mass := Sim.mEx } =
      (-(100 / 81), 0) :=
  Sim.netacc_shift_1

/-- Running only thread 0's read and write already moves particle 0, so the
state thread 1 is about to clone differs from the step's initial state. -/
theorem Sim.race_prefix :
    (Sim.raceRun 2 1 Sim.exPair [Sim.Ev.read 0, Sim.Ev.write 0]).particles =
      [{ id := 0, velocity := (1, 0), position := (1, 0), mass := Sim.mEx }, Sim.exP1] := by
  norm_num [Sim.raceRun, List.foldl_cons, List.foldl_nil, Sim.raceStep, Sim.exPair,
    Sim.exP0, Sim.exP1, Sim.stripe, Sim.applyWrite, Sim.commit, Function.update_apply,
    Sim.netacc_lit_0, List.map_cons, List.map_nil]

/-- Full racy schedule: thread 0 reads and writes, then thread 1 reads and
writes; thread 1's snapshot sees particle 0 already moved, so its committed
velocity is `-100/81` instead of `-1`. -/
theorem Sim.race_full :
    (Sim.raceRun 2 1 Sim.exPair
        [Sim.Ev.read 0, Sim.Ev.write 0, Sim.Ev.read 1, Sim.Ev.write 1]).particles =
      [{ id := 0, velocity := (1, 0), position := (1, 0), mass := Sim.mEx },
       { id := 1, velocity := (-(100 / 81), 0), position := (710 / 81, 0),
         mass := Sim.mEx }] := by
  norm_num [Sim.raceRun, List.foldl_cons, List.foldl_nil, Sim.raceStep, Sim.exPair,
    Sim.exP0, Sim.exP1, Sim.stripe, Sim.applyWrite, Sim.commit, Function.update_apply,
    Sim.netacc_lit_0, Sim.netacc_shift_lit, List.map_cons, List.map_nil]

/-- Under the phase-separated schedule (both reads before both writes) the
racy model reproduces the isolated worker-pool step on the concrete pair. -/
theorem Sim.race_readsFirst :
    (Sim.raceRun 2 1 Sim.exPair
        [Sim.Ev.read 0, Sim.Ev.read 1, Sim.Ev.write 0, Sim.Ev.write 1]).particles =
      [{ id := 0, velocity := (1, 0), position := (1, 0), mass := Sim.mEx },
       { id := 1, velocity := (-1, 0), position := (9, 0), mass := Sim.mEx }] := by
  norm_num [Sim.raceRun, List.foldl_cons, List.foldl_nil, Sim.raceStep, Sim.exPair,
    Sim.exP0, Sim.exP1, Sim.stripe, Sim.applyWrite, Sim.commit, Function.update_apply,
    Sim.netacc_lit_0, Sim.netacc_lit_1, List.map_cons, List.map_nil]

/-- With a single participant (`num_threads = 1`, the main thread alone) the
interleaving model always computes the phase-separated step from the
pre-step snapshot. -/
theorem Sim.race_single (init : List Sim.Particle) (dt : ℝ) :
    (Sim.raceRun 1 dt init [Sim.Ev.read 0, Sim.Ev.write 0]).particles =
      Sim.WorkerThreadsWorld.update1 init dt := by
  rw [Sim.raceRun]
  simp only [List.foldl_cons, List.foldl_nil, Sim.raceStep, Sim.stripe_one,
    Function.update_same]
  rw [Sim.applyWrite_one]
  rfl

/-- The specification form of a write phase preserves the length of the
collection. -/
theorem Sim.writeSpec_length (n t : ℕ) (dt : ℝ) (g : Sim.Particle → Vec2) :
    ∀ (ps : List Sim.Particle) (i : ℕ),
      (Sim.writeSpec n t dt g i ps).length = ps.length := by
  intro ps
  induction ps with
  | nil => intro i; rfl
  | cons p ps ih => intro i; simp [Sim.writeSpec, ih]

/-- Pointwise description of the specification write phase: the particle at
global index `i + j` is committed exactly when that index lies on thread
`t`'s stripe. -/
theorem Sim.writeSpec_get (n t : ℕ) (dt : ℝ) (g : Sim.Particle → Vec2) :
    ∀ (ps : List Sim.Particle) (i j : ℕ),
      (Sim.writeSpec n t dt g i ps).get? j =
        if (i + j) % n = t then (ps.get? j).map (fun p => Sim.commit dt (g p) p)
        else ps.get? j := by
  intro ps
  induction ps with
  | nil => intro i j; simp [Sim.writeSpec]
  | cons p ps ih =>
      intro i j
      cases j with
      | zero => simp [Sim.writeSpec, apply_ite Option.some]
      | succ j =>
          have hidx : i + 1 + j = i + (j + 1) := by omega
          show ((if i % n = t then Sim.commit dt (g p) p else p) ::
              Sim.writeSpec n t dt g (i + 1) ps).get? (j + 1) =
            if (i + (j + 1)) % n = t then
              ((p :: ps).get? (j + 1)).map (fun q => Sim.commit dt (g q) q)
            else (p :: ps).get? (j + 1)
          rw [List.get?_cons_succ, List.get?_cons_succ, ih (i + 1) j, hidx]

/-- The write phase walked against a collection that agrees with the snapshot
`qs` on thread `t`'s stripe, with deltas collected from that snapshot, is the
specification write phase: each stripe particle is committed with its own
delta. -/
theorem Sim.applyWrite_spec (n t : ℕ) (dt : ℝ) (g : Sim.Particle → Vec2) :
    ∀ (qs ps : List Sim.Particle) (i : ℕ),
      qs.length = ps.length →
      (∀ j, (i + j) % n = t → qs.get? j = ps.get? j) →
      Sim.applyWrite n t dt i ((Sim.stripe n t i qs).map g) ps =
        Sim.writeSpec n t dt g i ps := by
  intro qs
  induction qs with
  | nil =>
      intro ps i hlen _
      have hps : ps = [] := by
        cases ps with
        | nil => rfl
        | cons a as => simp at hlen
      subst hps
      rfl
  | cons q qs ih =>
      intro ps i hlen hagree
      cases ps with
      | nil => simp at hlen
      | cons p ps =>
          have hlen2 : qs.length = ps.length := by simpa using hlen
          have hagree2 : ∀ j, (i + 1 + j) % n = t → qs.get? j = ps.get? j := by
            intro j hj
            have hidx : i + (j + 1) = i + 1 + j := by omega
            have hstep := hagree (j + 1) (by rw [hidx]; exact hj)
            simpa using hstep
          by_cases hc : i % n = t
          · have hqp : q = p := by
              have h0 := hagree 0 (by simpa using hc)
              simpa using h0
            subst hqp
            simp only [Sim.stripe, Sim.applyWrite, Sim.writeSpec, hc, if_true,
              List.map_cons, eq_self_iff_true]
            rw [ih ps (i + 1) hlen2 hagree2]
          · simp only [Sim.stripe, Sim.applyWrite, Sim.writeSpec, if_neg hc]
            rw [ih ps (i + 1) hlen2 hagree2]

/-- After any sequence of read events, at any thread count, the shared
collection still equals the pre-step snapshot, and every thread that has
read holds velocity deltas computed from that snapshot: force computations
in a read-only prefix never observe a same-step update. -/
theorem Sim.raceReads (n : ℕ) (dt : ℝ) (init : List Sim.Particle) (r : List ℕ) :
    (Sim.raceRun n dt init (r.map Sim.Ev.read)).particles = init ∧
    ∀ t ∈ r, (Sim.raceRun n dt init (r.map Sim.Ev.read)).pending t =
      some ((Sim.stripe n t 0 init).map (fun p => dt • Sim.net_acceleration init p)) := by
  induction r using List.reverseRecOn with
  | nil => exact ⟨rfl, by simp⟩
  | append_singleton r t ih =>
      have hsplit : Sim.raceRun n dt init ((r ++ [t]).map Sim.Ev.read) =
          Sim.raceStep n dt (Sim.raceRun n dt init (r.map Sim.Ev.read)) (Sim.Ev.read t) := by
        rw [List.map_append, Sim.raceRun, Sim.raceRun, List.foldl_append]
        rfl
      constructor
      · rw [hsplit]
        simpa [Sim.raceStep] using ih.1
      · intro u hu
        rw [hsplit]
        by_cases hut : u = t
        · subst hut
          simp [Sim.raceStep, Function.update_same, ih.1]
        · have hur : u ∈ r := by
            rcases List.mem_append.mp hu with h | h
            · exact h
            · exact absurd (List.mem_singleton.mp h) hut
          simpa [Sim.raceStep, Function.update_noteq hut] using ih.2 u hur

/-- Folding the write events of pairwise distinct threads whose pending
deltas were all computed from the snapshot `init`, over a collection that
still equals `init` on the stripes of those threads, commits exactly those
stripes with snapshot deltas and leaves everything else untouched. -/
theorem Sim.raceWrites (n : ℕ) (dt : ℝ) (init : List Sim.Particle) :
    ∀ (ts : List ℕ) (s : Sim.RaceState), ts.Nodup →
      (∀ t ∈ ts, s.pending t =
        some ((Sim.stripe n t 0 init).map (fun p => dt • Sim.net_acceleration init p))) →
      (∀ j, j % n ∈ ts → s.particles.get? j = init.get? j) →
      s.particles.length = init.length →
      ∀ j, ((ts.map Sim.Ev.write).foldl (Sim.raceStep n dt) s).particles.get? j =
        if j % n ∈ ts then
          (init.get? j).map (fun p => Sim.commit dt (dt • Sim.net_acceleration init p) p)
        else s.particles.get? j := by
  intro ts
  induction ts with
  | nil =>
      intro s _ _ _ _ j
      simp
  | cons t ts ih =>
      intro s hnd hpend hag hlen j
      have ht_not : t ∉ ts := (List.nodup_cons.mp hnd).1
      have hnd2 : ts.Nodup := (List.nodup_cons.mp hnd).2
      have hpt : s.pending t = some ((Sim.stripe n t 0 init).map
          (fun p => dt • Sim.net_acceleration init p)) := hpend t (by simp)
      have hAW : Sim.applyWrite n t dt 0
          ((Sim.stripe n t 0 init).map (fun p => dt • Sim.net_acceleration init p))
          s.particles =
          Sim.writeSpec n t dt (fun p => dt • Sim.net_acceleration init p) 0 s.particles := by
        refine Sim.applyWrite_spec n t dt _ init s.particles 0 hlen.symm ?_
        intro k hk
        have hkt : k % n = t := by simpa using hk
        exact (hag k (by simp [hkt])).symm
      have hstep : Sim.raceStep n dt s (Sim.Ev.write t) =
          { particles := Sim.writeSpec n t dt
              (fun p => dt • Sim.net_acceleration init p) 0 s.particles,
            pending := Function.update s.pending t none } := by
        simp [Sim.raceStep, hpt, hAW]
      have hpend2 : ∀ u ∈ ts,
          (Sim.raceStep n dt s (Sim.Ev.write t)).pending u =
            some ((Sim.stripe n u 0 init).map
              (fun p => dt • Sim.net_acceleration init p)) := by
        intro u hu
        have hut : u ≠ t := fun h => ht_not (h ▸ hu)
        rw [hstep]
        simpa [Function.update_noteq hut] using hpend u (by simp [hu])
      have hag2 : ∀ j, j % n ∈ ts →
          (Sim.raceStep n dt s (Sim.Ev.write t)).particles.get? j = init.get? j := by
        intro k hk
        have hkt : k % n ≠ t := fun h => ht_not (h ▸ hk)
        rw [hstep]
        show (Sim.writeSpec n t dt (fun p => dt • Sim.net_acceleration init p) 0
          s.particles).get? k = init.get? k
        rw [Sim.writeSpec_get, if_neg (by simpa using hkt)]
        exact hag k (by simp [hk])
      have hlen2 : (Sim.raceStep n dt s (Sim.Ev.write t)).particles.length = init.length := by
        rw [hstep]
        show (Sim.writeSpec n t dt (fun p => dt • Sim.net_acceleration init p) 0
          s.particles).length = init.length
        rw [Sim.writeSpec_length]
        exact hlen
      rw [List.map_cons, List.foldl_cons]
      rw [ih (Sim.raceStep n dt s (Sim.Ev.write t)) hnd2 hpend2 hag2 hlen2 j]
      by_cases hmem : j % n ∈ ts
      · rw [if_pos hmem, if_pos (by simp [hmem])]
      · rw [if_neg hmem]
        by_cases hjt : j % n = t
        · rw [if_pos (by simp [hjt]), hstep]
          show (Sim.writeSpec n t dt (fun p => dt • Sim.net_acceleration init p) 0
              s.particles).get? j =
            (init.get? j).map (fun p => Sim.commit dt (dt • Sim.net_acceleration init p) p)
          rw [Sim.writeSpec_get, if_pos (by simpa using hjt)]
          rw [hag j (by simp [hjt])]
        · rw [if_neg (by simp [hjt, hmem]), hstep]
          show (Sim.writeSpec n t dt (fun p => dt • Sim.net_acceleration init p) 0
              s.particles).get? j = s.particles.get? j
          rw [Sim.writeSpec_get, if_neg (by simpa using hjt)]

/-- The canonical reads-first schedule (every thread reads, then every
thread writes) reproduces the phase-separated worker-pool step at every
thread count. -/
theorem Sim.race_readsFirst_general (n : ℕ) (dt : ℝ) (init : List Sim.Particle)
    (hn : 0 < n) :
    (Sim.raceRun n dt init
        ((List.range n).map Sim.Ev.read ++ (List.range n).map Sim.Ev.write)).particles =
      Sim.WorkerThreadsWorld.update1 init dt := by
  have hsplit : Sim.raceRun n dt init
      ((List.range n).map Sim.Ev.read ++ (List.range n).map Sim.Ev.write) =
      ((List.range n).map Sim.Ev.write).foldl (Sim.raceStep n dt)
        (Sim.raceRun n dt init ((List.range n).map Sim.Ev.read)) := by
    rw [Sim.raceRun, Sim.raceRun, List.foldl_append]
  have hreads := Sim.raceReads n dt init (List.range n)
  have hw := Sim.raceWrites n dt init (List.range n)
    (Sim.raceRun n dt init ((List.range n).map Sim.Ev.read))
    (List.nodup_range n) hreads.2
    (fun j _ => by rw [hreads.1]) (by rw [hreads.1])
  rw [hsplit]
  apply List.ext_get?
  intro j
  rw [hw j, if_pos (List.mem_range.mpr (Nat.mod_lt j hn))]
  rw [Sim.WorkerThreadsWorld.update1, List.get?_map]

/-- C1: the claim that one step under Sequential, Data-Parallel (Rayon) and
Worker-Pool strategies produces the same positions and velocities fails on
the code.  Rayon does equal Sequential on every input, but on the concrete
two-body world with `dt = 2` the Sequential step commits velocity `(4, 0)`
for particle 0 (delta `net_acceleration * dt * dt`) while the Worker-Pool
step commits `(2, 0)` (delta `net_acceleration * dt`): a relative error of
1, far beyond any 1e-9 tolerance, already in exact real arithmetic. -/
theorem C1_cross_strategy_divergence :
    (∀ (ps : List Sim.Particle) (dt : ℝ),
        Sim.RayonWorld.update ps dt = Sim.SequentialWorld.update ps dt) ∧
    (Sim.SequentialWorld.update Sim.exPair 2).map Sim.Particle.velocity =
      [(4, 0), (-4, 0)] ∧
    (Sim.WorkerThreadsWorld.update1 Sim.exPair 2).map Sim.Particle.velocity =
      [(2, 0), (-2, 0)] ∧
    Sim.SequentialWorld.update Sim.exPair 2 ≠ Sim.WorkerThreadsWorld.update1 Sim.exPair 2 := by
  refine ⟨fun ps dt => rfl, ?_, ?_, ?_⟩
  · rw [Sim.seq_exPair]
    rfl
  · rw [Sim.worker_exPair]
    rfl
  · rw [Sim.seq_exPair, Sim.worker_exPair]
    intro h
    simp only [List.cons.injEq, Sim.Particle.mk.injEq, Prod.mk.injEq] at h
    norm_num at h

/-- C2 counterexample: in the worker-pool interleaving model with two
threads, nothing separates one thread's write phase from another thread's
read phase.  Under the schedule read 0, write 0, read 1, write 1 on the
concrete pair with `dt = 1`, the state thread 1 clones for its force
computation is no longer the step's initial state (particle 0 has already
moved), and the final state differs from the phase-separated result. -/
theorem C2_counterexample :
    (Sim.raceRun 2 1 Sim.exPair [Sim.Ev.read 0, Sim.Ev.write 0]).particles ≠ Sim.exPair ∧
    (Sim.raceRun 2 1 Sim.exPair
        [Sim.Ev.read 0, Sim.Ev.write 0, Sim.Ev.read 1, Sim.Ev.write 1]).particles ≠
      Sim.WorkerThreadsWorld.update1 Sim.exPair 1 := by
  constructor
  · rw [Sim.race_prefix]
    intro h
    simp only [Sim.exPair, Sim.exP0, Sim.exP1, List.cons.injEq, Sim.Particle.mk.injEq,
      Prod.mk.injEq] at h
    norm_num at h
  · rw [Sim.race_full, Sim.worker_exPair_one]
    intro h
    simp only [List.cons.injEq, Sim.Particle.mk.injEq, Prod.mk.injEq] at h
    norm_num at h

/-- C2 amended: snapshot isolation does hold for the worker pool whenever
every read precedes every write.  First clause: after any sequence of read
events, at any thread count and in any order, the shared collection still
equals the pre-step snapshot and every thread that has read holds deltas
computed from that snapshot — and force computations happen only in read
events, so no force computation of a reads-first schedule observes a
same-step update.  Second clause: the canonical reads-then-writes schedule
produces exactly the phase-separated step result for every thread count
`n > 0` (hence in particular for `num_threads = 1`).  Third clause: the
two-thread instance of that schedule on the concrete pair.  Only schedules
interleaving one thread's write before another thread's read violate the
claim, as the counterexample shows. -/
theorem C2_amended_isolation :
    (∀ (n : ℕ) (dt : ℝ) (init : List Sim.Particle) (r : List ℕ),
        (Sim.raceRun n dt init (r.map Sim.Ev.read)).particles = init ∧
        ∀ t ∈ r, (Sim.raceRun n dt init (r.map Sim.Ev.read)).pending t =
          some ((Sim.stripe n t 0 init).map
            (fun p => dt • Sim.net_acceleration init p))) ∧
    (∀ (n : ℕ) (dt : ℝ) (init : List Sim.Particle), 0 < n →
        (Sim.raceRun n dt init
            ((List.range n).map Sim.Ev.read ++
              (List.range n).map Sim.Ev.write)).particles =
          Sim.WorkerThreadsWorld.update1 init dt) ∧
    (Sim.raceRun 2 1 Sim.exPair
        [Sim.Ev.read 0, Sim.Ev.read 1, Sim.Ev.write 0, Sim.Ev.write 1]).particles =
      Sim.WorkerThreadsWorld.update1 Sim.exPair 1 := by
  refine ⟨Sim.raceReads, fun n dt init hn => Sim.race_readsFirst_general n dt init hn, ?_⟩
  rw [Sim.race_readsFirst, Sim.worker_exPair_one]

/-- C2 amended witness: the isolation theorem applied at two threads on the
concrete pair — thread 1's recorded deltas after the read prefix are
computed from the pre-step snapshot, and the canonical reads-first schedule
equals the phase-separated step. -/
theorem C2_amended_witness :
    ((1 : ℕ) ∈ [0, 1]) ∧ (0 : ℕ) < 2 ∧
    (Sim.raceRun 2 1 Sim.exPair ([0, 1].map Sim.Ev.read)).pending 1 =
      some ((Sim.stripe 2 1 0 Sim.exPair).map
        (fun p => (1 : ℝ) • Sim.net_acceleration Sim.exPair p)) ∧
    (Sim.raceRun 2 1 Sim.exPair
        ((List.range 2).map Sim.Ev.read ++ (List.range 2).map Sim.Ev.write)).particles =
      Sim.WorkerThreadsWorld.update1 Sim.exPair 1 :=
  ⟨by simp, by norm_num,
   (C2_amended_isolation.1 2 1 Sim.exPair [0, 1]).2 1 (by simp),
   C2_amended_isolation.2.1 2 1 Sim.exPair (by norm_num)⟩

/-- C3: the claim that the sequential step sets `v` to `v + a*dt` fails on
the code.  `SequentialWorld::update` computes
`let acceleration = net_acceleration * dt` and then adds `acceleration * dt`
again, so the velocity delta is `a * dt * dt`; on the concrete pair with
`dt = 2` the committed velocity is `(4, 0)`, not the `(2, 0)` the claim
prescribes.  The ordering part of the claim (acceleration from the pre-step
snapshot, then velocity, then position from the new velocity) is as stated. -/
theorem C3_sequential_double_dt :
    (∀ (ps : List Sim.Particle) (dt : ℝ),
        Sim.SequentialWorld.update ps dt = ps.map (fun p =>
          Sim.commit dt ((dt * dt) • Sim.net_acceleration ps p) p)) ∧
    ((Sim.SequentialWorld.update Sim.exPair 2).map Sim.Particle.velocity =
        [(4, 0), (-4, 0)] ∧
      ((4 : ℝ), (0 : ℝ)) ≠ ((2 : ℝ), (0 : ℝ))) := by
  refine ⟨?_, ?_, ?_⟩
  · intro ps dt
    rw [Sim.SequentialWorld.update]
    congr 1
    funext p
    simp [smul_smul]
  · rw [Sim.seq_exPair]
    rfl
  · intro h
    rw [Prod.mk.injEq] at h
    norm_num at h

/-- C4: the claim that `calculate_acceleration` returns zero and never
produces NaN or Infinity at zero distance fails on the code.  With equal
positions `(3, 4)` and source mass `1`, the scalar `(-1 * G * 1) / 0` is
`-inf`, which passes the `is_nan` guard, and `-inf * (0 / 0)` makes both
result components NaN: the function returns `(NaN, NaN)`, not zero. -/
theorem C4_nan_at_zero_distance :
    F32.calculate_acceleration
      { id := 0, velocity := (Fl.fin 0, Fl.fin 0), position := (Fl.fin 3, Fl.fin 4),
        mass := Fl.fin 5, acceleration := (Fl.fin 0, Fl.fin 0) }
      { id := 1, velocity := (Fl.fin 0, Fl.fin 0), position := (Fl.fin 3, Fl.fin 4),
        mass := Fl.fin 1, acceleration := (Fl.fin 0, Fl.fin 0) } = (Fl.nan, Fl.nan) ∧
    ((Fl.nan, Fl.nan) : FVec) ≠ (Fl.fin 0, Fl.fin 0) := by
  refine ⟨F32.calcAcc_same_pos 0 1 _ _ _ _ 3 4 (Fl.fin 5) 1 (by norm_num), ?_⟩
  intro h
  rw [Prod.mk.injEq] at h
  exact absurd h.1 (by simp)

/-- C5 counterexample: `create_particle` with mass `-1` does not fail and
does not leave the collection unchanged — it appends the particle. -/
theorem C5_counterexample :
    Sim.SequentialWorld.create_particle [] (0, 0) (0, 0) (-1) ≠ ([] : List Sim.Particle) := by
  simp [Sim.SequentialWorld.create_particle]

/-- C5 amended: `create_particle` performs no mass validation and has no
failure channel.  For every mass, including zero and negative values, the
sequential world appends one particle with id equal to the current length,
and the worker world appends one particle with id `particle_count` and
increments the counter; the live count always grows by one. -/
theorem C5_spawn_never_fails : ∀ (ps : List Sim.Particle) (pos vel : Vec2) (m : ℝ),
    Sim.SequentialWorld.create_particle ps pos vel m =
      ps ++ [{ id := ps.length, velocity := vel, position := pos, mass := m }] ∧
    (Sim.SequentialWorld.create_particle ps pos vel m).length = ps.length + 1 ∧
    ∀ (w : Sim.WorkerThreadsWorld),
      (Sim.WorkerThreadsWorld.create_particle w pos vel m).particles =
        w.particles ++ [{ id := w.particle_count, velocity := vel, position := pos,
                          mass := m }] ∧
      (Sim.WorkerThreadsWorld.create_particle w pos vel m).particle_count =
        w.particle_count + 1 := by
  intro ps pos vel m
  refine ⟨rfl, ?_, fun w => ⟨rfl, rfl⟩⟩
  simp [Sim.SequentialWorld.create_particle]

/-- C6: the claim that spawning always yields distinct ids fails on the
code, as the spec itself warns in its design notes.  A batch of two
particles created by `generate_random_particles` on an empty collection
both receive id `0` (the pre-loop length), so the id list `[0, 0]` has a
duplicate; and after a strategy switch seeds `WorkerThreadsWorld::new`
with an existing particle of id `0`, the next `create_particle` assigns
id `particle_count = 0` again. -/
theorem C6_duplicate_ids :
    ((F32.generate_random_particles []
        [((Fl.fin 0, Fl.fin 0), (Fl.fin 0, Fl.fin 0), Fl.fin 1),
         ((Fl.fin 0, Fl.fin 0), (Fl.fin 1, Fl.fin 0), Fl.fin 1)]).map
      (fun p => p.id) = [0, 0] ∧
      ¬ (((F32.generate_random_particles []
        [((Fl.fin 0, Fl.fin 0), (Fl.fin 0, Fl.fin 0), Fl.fin 1),
         ((Fl.fin 0, Fl.fin 0), (Fl.fin 1, Fl.fin 0), Fl.fin 1)]).map
      (fun p => p.id)).Nodup)) ∧
    ((Sim.WorkerThreadsWorld.new 2
        [{ id := 0, velocity := (0, 0), position := (0, 0), mass := 1 }]).create_particle
        (5, 5) (0, 0) 1).particles.map (fun p => p.id) = [0, 0] := by
  refine ⟨⟨?_, ?_⟩, ?_⟩ <;>
    simp [F32.generate_random_particles, Sim.WorkerThreadsWorld.new,
      Sim.WorkerThreadsWorld.create_particle]

/-- C7: `net_acceleration` aggregates exactly the sources whose id differs
from the subject's: it equals the sum of `calculate_acceleration` over the
id-filtered list, and inserting any particle carrying the subject's id
anywhere in the collection (even at a different position, and conversely
even when a distinct-id particle shares the subject's position) leaves the
result unchanged. -/
theorem C7_self_exclusion :
    (∀ (ps : List F32.Particle) (p : F32.Particle),
        F32.net_acceleration ps p =
          fvsum ((ps.filter (fun q => q.id != p.id)).map
            (fun q => F32.calculate_acceleration p q))) ∧
    (∀ (ps1 ps2 : List F32.Particle) (p q : F32.Particle), q.id = p.id →
        F32.net_acceleration (ps1 ++ q :: ps2) p = F32.net_acceleration (ps1 ++ ps2) p) := by
  constructor
  · intro ps p
    rw [F32.net_acceleration]
    have hpred : ∀ q : F32.Particle, (p.id != q.id) = (q.id != p.id) := by
      intro q
      by_cases h : p.id = q.id
      · simp [h]
      · have h1 : (p.id != q.id) = true := by simp [h]
        have h2 : (q.id != p.id) = true := by simp [Ne.symm h]
        rw [h1, h2]
    simp only [hpred]
  · intro ps1 ps2 p q hq
    rw [F32.net_acceleration, F32.net_acceleration]
    simp [List.filter_append, List.filter_cons, hq]

/-- C7 witness: inserting a same-id particle (id 0, at the subject's own
position) between two other particles does not change the net
acceleration of the subject. -/
theorem C7_witness :
    (({ id := 0, velocity := (Fl.fin 0, Fl.fin 0), position := (Fl.fin 1, Fl.fin 1),
          mass := Fl.fin 7, acceleration := (Fl.fin 0, Fl.fin 0) } : F32.Particle).id =
        ({ id := 0, velocity := (Fl.fin 0, Fl.fin 0), position := (Fl.fin 1, Fl.fin 1),
            mass := Fl.fin 2, acceleration := (Fl.fin 0, Fl.fin 0) } : F32.Particle).id) ∧
    F32.net_acceleration
      ([{ id := 1, velocity := (Fl.fin 0, Fl.fin 0), position := (Fl.fin 3, Fl.fin 0),
            mass := Fl.fin 4, acceleration := (Fl.fin 0, Fl.fin 0) }] ++
        { id := 0, velocity := (Fl.fin 0, Fl.fin 0), position := (Fl.fin 1, Fl.fin 1),
            mass := Fl.fin 7, acceleration := (Fl.fin 0, Fl.fin 0) } ::
        [{ id := 2, velocity := (Fl.fin 0, Fl.fin 0), position := (Fl.fin 0, Fl.fin 5),
            mass := Fl.fin 9, acceleration := (Fl.fin 0, Fl.fin 0) }])
      { id := 0, velocity := (Fl.fin 0, Fl.fin 0), position := (Fl.fin 1, Fl.fin 1),
          mass := Fl.fin 2, acceleration := (Fl.fin 0, Fl.fin 0) } =
    F32.net_acceleration
      ([{ id := 1, velocity := (Fl.fin 0, Fl.fin 0), position := (Fl.fin 3, Fl.fin 0),
            mass := Fl.fin 4, acceleration := (Fl.fin 0, Fl.fin 0) }] ++
        [{ id := 2, velocity := (Fl.fin 0, Fl.fin 0), position := (Fl.fin 0, Fl.fin 5),
            mass := Fl.fin 9, acceleration := (Fl.fin 0, Fl.fin 0) }])
      { id := 0, velocity := (Fl.fin 0, Fl.fin 0), position := (Fl.fin 1, Fl.fin 1),
          mass := Fl.fin 2, acceleration := (Fl.fin 0, Fl.fin 0) } :=
  ⟨rfl, C7_self_exclusion.2 _ _ _ _ rfl⟩

/-- C8 amended: for particles at distinct finite positions, the mass-scaled
accelerations are exact negatives of each other (equal magnitude, opposite
direction — Newton's third law); the zero-distance clause of the claim is
replaced by the actual behaviour, established in the counterexample: both
products are NaN vectors there, not zero. -/
theorem C8_newton_pairs (ia ib : ℕ) (va vb aa ab : FVec) (x1 y1 x2 y2 ma mb : ℝ)
    (h : ((x1 : ℝ), (y1 : ℝ)) ≠ (x2, y2)) :
    fvScaleR
      (F32.calculate_acceleration
        { id := ia, velocity := va, position := (Fl.fin x1, Fl.fin y1), mass := Fl.fin ma,
            acceleration := aa }
        { id := ib, velocity := vb, position := (Fl.fin x2, Fl.fin y2), mass := Fl.fin mb,
            acceleration := ab })
      (Fl.fin ma) =
    fvNeg (fvScaleR
      (F32.calculate_acceleration
        { id := ib, velocity := vb, position := (Fl.fin x2, Fl.fin y2), mass := Fl.fin mb,
            acceleration := ab }
        { id := ia, velocity := va, position := (Fl.fin x1, Fl.fin y1), mass := Fl.fin ma,
            acceleration := aa })
      (Fl.fin mb)) := by
  have hBA : ((x2 : ℝ), (y2 : ℝ)) ≠ (x1, y1) := by
    intro hc
    rw [Prod.mk.injEq] at hc
    exact h (by rw [Prod.mk.injEq]; exact ⟨hc.1.symm, hc.2.symm⟩)
  rw [F32.calcAcc_fin ia ib va vb aa ab x1 y1 x2 y2 (Fl.fin ma) mb h,
    F32.calcAcc_fin ib ia vb va ab aa x2 y2 x1 y1 (Fl.fin mb) ma hBA]
  have hs : (x2 - x1) * (x2 - x1) + (y2 - y1) * (y2 - y1) =
      (x1 - x2) * (x1 - x2) + (y1 - y2) * (y1 - y2) := by ring
  rw [hs]
  simp only [fvScaleR, fvNeg, Fl.mul, Fl.neg]
  rw [Prod.ext_iff]
  constructor <;> (dsimp only; rw [Fl.fin.injEq]; ring)

/-- C8 witness: the amended symmetry law at the concrete pair of the spec's
scenario — positions `(0,0)` and `(10,0)`, masses `5` and `3`. -/
theorem C8_witness :
    (((0 : ℝ), (0 : ℝ)) ≠ ((10 : ℝ), (0 : ℝ))) ∧
    fvScaleR
      (F32.calculate_acceleration
        { id := 0, velocity := (Fl.fin 0, Fl.fin 0), position := (Fl.fin 0, Fl.fin 0),
            mass := Fl.fin 5, acceleration := (Fl.fin 0, Fl.fin 0) }
        { id := 1, velocity := (Fl.fin 0, Fl.fin 0), position := (Fl.fin 10, Fl.fin 0),
            mass := Fl.fin 3, acceleration := (Fl.fin 0, Fl.fin 0) })
      (Fl.fin 5) =
    fvNeg (fvScaleR
      (F32.calculate_acceleration
        { id := 1, velocity := (Fl.fin 0, Fl.fin 0), position := (Fl.fin 10, Fl.fin 0),
            mass := Fl.fin 3, acceleration := (Fl.fin 0, Fl.fin 0) }
        { id := 0, velocity := (Fl.fin 0, Fl.fin 0), position := (Fl.fin 0, Fl.fin 0),
            mass := Fl.fin 5, acceleration := (Fl.fin 0, Fl.fin 0) })
      (Fl.fin 3)) :=
  ⟨by norm_num [Prod.ext_iff],
   C8_newton_pairs 0 1 (Fl.fin 0, Fl.fin 0) (Fl.fin 0, Fl.fin 0) (Fl.fin 0, Fl.fin 0)
     (Fl.fin 0, Fl.fin 0) 0 0 10 0 5 3 (by norm_num [Prod.ext_iff])⟩

/-- C8 counterexample: at equal positions the claim says both mass-scaled
products are zero, but the code's product for masses `5` and `3` is the NaN
vector, which is not the zero vector. -/
theorem C8_counterexample :
    fvScaleR
      (F32.calculate_acceleration
        { id := 0, velocity := (Fl.fin 0, Fl.fin 0), position := (Fl.fin 0, Fl.fin 0),
            mass := Fl.fin 5, acceleration := (Fl.fin 0, Fl.fin 0) }
        { id := 1, velocity := (Fl.fin 0, Fl.fin 0), position := (Fl.fin 0, Fl.fin 0),
            mass := Fl.fin 3, acceleration := (Fl.fin 0, Fl.fin 0) })
      (Fl.fin 5) ≠ ((Fl.fin 0, Fl.fin 0) : FVec) := by
  rw [F32.calcAcc_same_pos 0 1 (Fl.fin 0, Fl.fin 0) (Fl.fin 0, Fl.fin 0)
    (Fl.fin 0, Fl.fin 0) (Fl.fin 0, Fl.fin 0) 0 0 (Fl.fin 5) 3 (by norm_num)]
  intro h
  rw [fvScaleR, Prod.mk.injEq] at h
  have h1 := h.1
  rw [show Fl.mul Fl.nan (Fl.fin 5) = Fl.nan from rfl] at h1
  exact absurd h1 (by simp)

/-- C9: one step, under the Sequential strategy, the Rayon strategy, the
phase-separated worker pool, and the interleaving worker-pool model under
every thread count and every schedule, preserves the length and order of
the collection and every particle's id and mass; only velocities and
positions change. -/
theorem C9_frame_effect : ∀ (ps : List Sim.Particle) (dt : ℝ),
    (Sim.SequentialWorld.update ps dt).map Sim.keyOf = ps.map Sim.keyOf ∧
    (Sim.RayonWorld.update ps dt).map Sim.keyOf = ps.map Sim.keyOf ∧
    (Sim.WorkerThreadsWorld.update1 ps dt).map Sim.keyOf = ps.map Sim.keyOf ∧
    (∀ (n : ℕ) (sched : List Sim.Ev),
        ((Sim.raceRun n dt ps sched).particles).map Sim.keyOf = ps.map Sim.keyOf) ∧
    (Sim.SequentialWorld.update ps dt).length = ps.length := by
  intro ps dt
  refine ⟨?_, ?_, ?_, fun n sched => Sim.raceRun_keyOf n dt ps sched, ?_⟩
  · simp [Sim.SequentialWorld.update, Sim.commit, Sim.keyOf]
  · simp [Sim.RayonWorld.update, Sim.commit, Sim.keyOf]
  · simp [Sim.WorkerThreadsWorld.update1, Sim.commit, Sim.keyOf]
  · simp [Sim.SequentialWorld.update]

/-- C10: a sequential step on a world with exactly one particle leaves its
velocity unchanged (the net acceleration is the empty sum, because the only
candidate source is filtered out by the self-exclusion id test) and moves
its position to `p + v * dt`. -/
theorem C10_single_particle : ∀ (p : Sim.Particle) (dt : ℝ),
    Sim.SequentialWorld.update [p] dt =
      [{ p with position := p.position + dt • p.velocity }] := by
  intro p dt
  rw [Sim.SequentialWorld.update]
  simp [Sim.net_acceleration, Sim.commit]
